import Mathlib

/-!
Shallow embedding of the JSON-backed stores of the AI-Recipe-Gen repository
(`expiration_tracker.py` and `user_preferences.py`) together with proofs of
the specified properties.

Modelling conventions:
* Python dict values stored in an expiration item are heterogeneous (ints and
  strings), so item fields carry a `Val` (int-or-string) value, mirroring the
  JSON document.
* `datetime.date` values are modelled by a `Date` record of numerals; Python's
  `date.toordinal` (proleptic Gregorian ordinal) is reproduced so that
  subtraction of dates gives the same `.days` integer.
* `datetime.datetime.strptime(s, "%Y-%m-%d")` and `date.fromisoformat` are
  modelled by executable parsers faithful to CPython's behaviour on ASCII
  input (strptime accepts 1-2 digit month/day, fromisoformat requires the
  zero-padded 10-character form; both demand a calendar-valid date).
* Python's `sorted` is a stable sort over a total preorder; `List.insertionSort`
  with the corresponding (non-strict) relation is stable and sorts for the same
  preorder, hence is extensionally equal to `sorted` (a stable sort of a list
  under a total preorder is unique).  `sorted(..., reverse=True)` is stable
  descending, i.e. `insertionSort` with the flipped non-strict relation.
* Persistence (`_save_data`) always succeeds in this model and carries no
  information beyond the in-memory state, so states are just the in-memory
  documents.  `today` (wall clock) is passed as an explicit parameter.
-/

/-- A JSON scalar stored in an item field: Python int or str. -/
inductive Val where
  | intV : Int → Val
  | strV : String → Val
deriving DecidableEq, Repr

/-- A calendar date (`datetime.date`): plain numerals, validity is enforced
by the parsers that produce dates. -/
structure Date where
  year : Nat
  month : Nat
  day : Nat
deriving DecidableEq, Repr

/-- Gregorian leap-year predicate, as in Python's `calendar.isleap`. -/
def isLeap (y : Nat) : Bool :=
  y % 4 = 0 && (y % 100 ≠ 0 || y % 400 = 0)

/-- Number of days in month `m` of year `y` (months are 1-based). -/
def daysInMonth (y m : Nat) : Nat :=
  if m = 2 then (if isLeap y then 29 else 28)
  else if m = 4 ∨ m = 6 ∨ m = 9 ∨ m = 11 then 30
  else 31

/-- Days in year `y` that precede month `m` (1-based). -/
def daysBeforeMonth (y m : Nat) : Nat :=
  (List.range (m - 1)).foldl (fun acc k => acc + daysInMonth y (k + 1)) 0

/-- Python's `date.toordinal`: day number in the proleptic Gregorian
calendar, with 0001-01-01 being ordinal 1. -/
def Date.toOrdinal (d : Date) : Int :=
  let y : Int := (d.year : Int) - 1
  365 * y + y / 4 - y / 100 + y / 400 + (daysBeforeMonth d.year d.month : Int) + (d.day : Int)

/-- `(a - b).days` for two `datetime.date` values. -/
def dateDiff (a b : Date) : Int :=
  a.toOrdinal - b.toOrdinal

/-- Split a character list on `'-'` (the semantics of `s.split("-")`;
defined structurally so the kernel can evaluate it). -/
def splitDash : List Char → List (List Char)
  | [] => [[]]
  | c :: cs =>
    if c = '-' then [] :: splitDash cs
    else
      match splitDash cs with
      | [] => [[c]]
      | g :: gs => (c :: g) :: gs

/-- Whether every character is an ASCII decimal digit and the group is
nonempty. -/
def allDigits (cs : List Char) : Bool :=
  !cs.isEmpty && cs.all (·.isDigit)

/-- Numeric value of an ASCII digit group (as `int(s)` on such input). -/
def digitsToNat (cs : List Char) : Nat :=
  cs.foldl (fun n c => n * 10 + (c.toNat - 48)) 0

/-- `datetime.datetime.strptime(s, "%Y-%m-%d").date()` as a total function:
`some d` iff parsing succeeds.  The `%Y` directive demands exactly 4 digits,
`%m`/`%d` accept 1-2 digits in range, the whole string must be consumed, and
the resulting triple must be a real calendar date (else `ValueError`). -/
def parseYmd (s : String) : Option Date :=
  match splitDash s.toList with
  | [ys, ms, ds] =>
    if ys.length = 4 && allDigits ys && allDigits ms && ms.length ≤ 2
        && allDigits ds && ds.length ≤ 2 then
      let y := digitsToNat ys
      let m := digitsToNat ms
      let d := digitsToNat ds
      if 1 ≤ y && 1 ≤ m && m ≤ 12 && 1 ≤ d && d ≤ daysInMonth y m then
        some ⟨y, m, d⟩
      else none
    else none
  | _ => none

/-- `datetime.date.fromisoformat`: requires the zero-padded `YYYY-MM-DD`
form and a calendar-valid date. -/
def fromIso (s : String) : Option Date :=
  match splitDash s.toList with
  | [ys, ms, ds] =>
    if ys.length = 4 && ms.length = 2 && ds.length = 2
        && allDigits ys && allDigits ms && allDigits ds then
      let y := digitsToNat ys
      let m := digitsToNat ms
      let d := digitsToNat ds
      if 1 ≤ y && 1 ≤ m && m ≤ 12 && 1 ≤ d && d ≤ daysInMonth y m then
        some ⟨y, m, d⟩
      else none
    else none
  | _ => none

/-- Left-pad the decimal representation of `n` with zeros to width `w`. -/
def padNum (w n : Nat) : String :=
  let s := toString n
  String.mk (List.replicate (w - s.length) '0') ++ s

/-- `date.isoformat()`: zero-padded `YYYY-MM-DD`. -/
def Date.iso (d : Date) : String :=
  padNum 4 d.year ++ "-" ++ padNum 2 d.month ++ "-" ++ padNum 2 d.day

/-- One tracked food item: the six keys `add_item` stores in the JSON
document.  All values are JSON scalars (`update_item` may overwrite any of
them with an arbitrary int or string). -/
structure Item where
  id : Val
  name : Val
  expiry_date : Val
  quantity : Val
  category : Val
  added_date : Val
deriving DecidableEq, Repr

/-- The `expiration_data` document: `{"items": [...], "notifications": [...]}`.
`notifications` is reserved and never touched by any operation. -/
structure TrackerState where
  items : List Item
  notifications : List Val
deriving DecidableEq, Repr

/-- The empty document created on first access. -/
def emptyTracker : TrackerState := ⟨[], []⟩

/-- The `expiry_date` argument of `add_item`: the code distinguishes `str`
from `datetime.date` by `isinstance`. -/
inductive ExpiryInput where
  | strE : String → ExpiryInput
  | dateE : Date → ExpiryInput
deriving DecidableEq, Repr

/-- Python truthiness test `not expiry_date` on the argument: an empty
string is falsy; a `date` object is always truthy. -/
def ExpiryInput.isFalsy : ExpiryInput → Bool
  | .strE s => s = ""
  | .dateE _ => false

/-- The date `add_item` would store, if any: a string is parsed with
`strptime "%Y-%m-%d"`, a date object is taken as is. -/
def ExpiryInput.normalize : ExpiryInput → Option Date
  | .strE s => parseYmd s
  | .dateE d => some d

/-- `ExpirationTracker.add_item(name, expiry_date, quantity, category)`.
Returns the Python boolean result and the resulting document; `today` is
the wall-clock date used for `added_date`. -/
def add_item (today : Date) (name : String) (expiry : ExpiryInput)
    (quantity category : String) (st : TrackerState) : Bool × TrackerState :=
  if name = "" || expiry.isFalsy then (false, st)
  else
    match expiry.normalize with
    | none => (false, st)
    | some d =>
      let newItem : Item :=
        { id := .intV ((st.items.length : Int) + 1)
          name := .strV name
          expiry_date := .strV d.iso
          quantity := .strV quantity
          category := .strV category
          added_date := .strV today.iso }
      (true, { st with items := st.items ++ [newItem] })

/-- `ExpirationTracker.remove_item(item_id)`: keep the items whose `id`
differs from `item_id` (Python `!=` between an int and a non-int dict value
is `True`, which `Val` equality reproduces). -/
def remove_item (itemId : Int) (st : TrackerState) : TrackerState :=
  { st with items := st.items.filter (fun it => it.id ≠ .intV itemId) }

/-- `ExpirationTracker.get_all_items()`. -/
def get_all_items (st : TrackerState) : List Item :=
  st.items

/-- The known keys of an item dict, in declaration order. -/
def itemKeys : List String :=
  ["id", "name", "expiry_date", "quantity", "category", "added_date"]

/-- `item[key] = value` for a key already present on the item; any other
key leaves the item unchanged (`update_item` only assigns when
`key in item`). -/
def setKnownField (it : Item) (kv : String × Val) : Item :=
  if kv.1 = "id" then { it with id := kv.2 }
  else if kv.1 = "name" then { it with name := kv.2 }
  else if kv.1 = "expiry_date" then { it with expiry_date := kv.2 }
  else if kv.1 = "quantity" then { it with quantity := kv.2 }
  else if kv.1 = "category" then { it with category := kv.2 }
  else if kv.1 = "added_date" then { it with added_date := kv.2 }
  else it

/-- Read a field of an item by key name (`none` for an unknown key). -/
def getField (it : Item) (k : String) : Option Val :=
  if k = "id" then some it.id
  else if k = "name" then some it.name
  else if k = "expiry_date" then some it.expiry_date
  else if k = "quantity" then some it.quantity
  else if k = "category" then some it.category
  else if k = "added_date" then some it.added_date
  else none

/-- The loop of `update_item`: find the first item whose `id` equals
`item_id`, apply all keyword updates to it, and stop. -/
def updateFirst (itemId : Val) (kwargs : List (String × Val)) :
    List Item → Option (List Item)
  | [] => none
  | it :: rest =>
    if it.id = itemId then some ((kwargs.foldl setKnownField it) :: rest)
    else (updateFirst itemId kwargs rest).map (it :: ·)

/-- `ExpirationTracker.update_item(item_id, **kwargs)`. -/
def update_item (itemId : Val) (kwargs : List (String × Val))
    (st : TrackerState) : Bool × TrackerState :=
  match updateFirst itemId kwargs st.items with
  | some items => (true, { st with items := items })
  | none => (false, st)

/-- An element of the list returned by the expiry queries: a copy of the
item together with the attached day count (`days_left` or `days_expired`). -/
structure DatedItem where
  item : Item
  days : Int
deriving DecidableEq, Repr

/-- The loop body of `get_expiring_soon` for one item: parse the stored
`expiry_date` with `fromisoformat` (a non-string raises `TypeError`, an
ill-formed string `ValueError`; both are caught and the item skipped),
keep the item iff `0 ≤ days_left ≤ days`. -/
def expiringEntry (today : Date) (days : Int) (it : Item) : Option DatedItem :=
  match it.expiry_date with
  | .strV s =>
    match fromIso s with
    | some d =>
      let dl := dateDiff d today
      if 0 ≤ dl ∧ dl ≤ days then some ⟨it, dl⟩ else none
    | none => none
  | .intV _ => none

/-- The loop body of `get_expired` for one item: keep iff
`days_expired > 0`. -/
def expiredEntry (today : Date) (it : Item) : Option DatedItem :=
  match it.expiry_date with
  | .strV s =>
    match fromIso s with
    | some d =>
      let de := dateDiff today d
      if de > 0 then some ⟨it, de⟩ else none
    | none => none
  | .intV _ => none

/-- Ascending comparison on the attached day count (the key function of
`sorted(expiring_soon, key=lambda x: x["days_left"])`). -/
def daysLe (a b : DatedItem) : Prop := a.days ≤ b.days

/-- Descending comparison on the attached day count
(`sorted(..., reverse=True)` is the stable sort for this relation). -/
def daysGe (a b : DatedItem) : Prop := b.days ≤ a.days

instance : DecidableRel daysLe := fun a b => inferInstanceAs (Decidable (a.days ≤ b.days))

instance : DecidableRel daysGe := fun a b => inferInstanceAs (Decidable (b.days ≤ a.days))

instance : IsTotal DatedItem daysLe := ⟨fun a b => Int.le_total a.days b.days⟩

instance : IsTrans DatedItem daysLe := ⟨fun _ _ _ h h' => le_trans h h'⟩

instance : IsTotal DatedItem daysGe := ⟨fun a b => Int.le_total b.days a.days⟩

instance : IsTrans DatedItem daysGe := ⟨fun _ _ _ h h' => le_trans h' h⟩

/-- `ExpirationTracker.get_expiring_soon(days)`: collect, then stable-sort
ascending by `days_left`. -/
def get_expiring_soon (today : Date) (days : Int) (st : TrackerState) : List DatedItem :=
  (st.items.filterMap (expiringEntry today days)).insertionSort daysLe

/-- `ExpirationTracker.get_expired()`: collect, then stable-sort descending
by `days_expired`. -/
def get_expired (today : Date) (st : TrackerState) : List DatedItem :=
  (st.items.filterMap (expiredEntry today)).insertionSort daysGe

/-- One entry of `liked_recipes` / `disliked_recipes`: the essential recipe
info stored by `add_liked_recipe` / `add_disliked_recipe`. -/
structure RecipeEntry where
  id : Int
  title : String
  ingredients : List String
  timestamp : String
deriving DecidableEq, Repr

/-- One entry of `meal_history` stored by `add_meal_to_history`. -/
structure MealEntry where
  recipe : String
  date : String
  meal_type : String
deriving DecidableEq, Repr

/-- The `user_data` document of `UserPreferences`. -/
structure PrefState where
  dietary_preferences : List String
  liked_recipes : List RecipeEntry
  disliked_recipes : List RecipeEntry
  favorites : List String
  dislikes : List String
  meal_history : List MealEntry
  cuisine_preferences : List String
deriving DecidableEq, Repr

/-- The empty document created on first access. -/
def emptyPrefs : PrefState := ⟨[], [], [], [], [], [], []⟩

/-- `UserPreferences.add_liked_recipe(recipe)`: append with
`id = len(liked_recipes) + 1` and the current timestamp, then drop every
same-titled entry from the disliked list.  `ts` stands for
`datetime.now().isoformat()`. -/
def add_liked_recipe (title : String) (ingredients : List String) (ts : String)
    (st : PrefState) : PrefState :=
  let entry : RecipeEntry :=
    { id := (st.liked_recipes.length : Int) + 1
      title := title, ingredients := ingredients, timestamp := ts }
  { st with
    liked_recipes := st.liked_recipes ++ [entry]
    disliked_recipes := st.disliked_recipes.filter (fun r => r.title ≠ title) }

/-- `UserPreferences.add_disliked_recipe(recipe)`. -/
def add_disliked_recipe (title : String) (ingredients : List String) (ts : String)
    (st : PrefState) : PrefState :=
  let entry : RecipeEntry :=
    { id := (st.disliked_recipes.length : Int) + 1
      title := title, ingredients := ingredients, timestamp := ts }
  { st with
    disliked_recipes := st.disliked_recipes ++ [entry]
    liked_recipes := st.liked_recipes.filter (fun r => r.title ≠ title) }

/-- `UserPreferences.add_favorite_ingredient(ingredient)`: idempotent append,
with removal of the first matching occurrence from the dislikes
(`list.remove`). -/
def add_favorite_ingredient (ing : String) (st : PrefState) : PrefState :=
  if ing ∈ st.favorites then st
  else
    { st with
      favorites := st.favorites ++ [ing]
      dislikes := if ing ∈ st.dislikes then st.dislikes.erase ing else st.dislikes }

/-- `UserPreferences.add_disliked_ingredient(ingredient)`. -/
def add_disliked_ingredient (ing : String) (st : PrefState) : PrefState :=
  if ing ∈ st.dislikes then st
  else
    { st with
      dislikes := st.dislikes ++ [ing]
      favorites := if ing ∈ st.favorites then st.favorites.erase ing else st.favorites }

/-- `UserPreferences.add_meal_to_history(recipe_title, meal_type)`. -/
def add_meal_to_history (recipeTitle : String) (mealType : String) (ts : String)
    (st : PrefState) : PrefState :=
  { st with meal_history := st.meal_history ++ [⟨recipeTitle, ts, mealType⟩] }

/-- Lexicographic code-point comparison of character lists: the semantics
of Python's `<=` on strings. -/
def lexLe : List Char → List Char → Bool
  | [], _ => true
  | _ :: _, [] => false
  | a :: as, b :: bs => if a = b then lexLe as bs else decide (a < b)

/-- `s <= t` for Python strings. -/
def strLeB (s t : String) : Bool :=
  lexLe s.toList t.toList

theorem lexLe_total : ∀ as bs : List Char, lexLe as bs = true ∨ lexLe bs as = true
  | [], _ => Or.inl rfl
  | _ :: _, [] => Or.inr rfl
  | a :: as, b :: bs => by
    by_cases hab : a = b
    · subst hab
      simpa [lexLe] using lexLe_total as bs
    · rcases lt_or_gt_of_ne hab with h | h
      · left
        simp [lexLe, hab, h]
      · right
        have hba : ¬b = a := fun e => hab e.symm
        simp [lexLe, hba, h]

theorem lexLe_trans : ∀ as bs cs : List Char,
    lexLe as bs = true → lexLe bs cs = true → lexLe as cs = true
  | [], _, _, _, _ => rfl
  | _ :: _, [], _, h1, _ => by simp [lexLe] at h1
  | _ :: _, _ :: _, [], _, h2 => by simp [lexLe] at h2
  | a :: as, b :: bs, c :: cs, h1, h2 => by
    by_cases hab : a = b <;> by_cases hbc : b = c
    · subst hab
      subst hbc
      simp only [lexLe, if_pos rfl] at h1 h2 ⊢
      exact lexLe_trans as bs cs h1 h2
    · subst hab
      have hlt : a < c := by simpa [lexLe, hbc] using h2
      have hac : ¬a = c := hbc
      simp [lexLe, hac, hlt]
    · subst hbc
      have hlt : a < b := by simpa [lexLe, hab] using h1
      simp [lexLe, hab, hlt]
    · have h1lt : a < b := by simpa [lexLe, hab] using h1
      have h2lt : b < c := by simpa [lexLe, hbc] using h2
      have hlt : a < c := lt_trans h1lt h2lt
      have hac : ¬a = c := ne_of_lt hlt
      simp [lexLe, hac, hlt]

/-- Descending lexicographic comparison on the stored `date` string
(`sorted(..., key=lambda x: x["date"], reverse=True)`). -/
def dateGe (a b : MealEntry) : Prop := strLeB b.date a.date = true

instance : DecidableRel dateGe :=
  fun a b => inferInstanceAs (Decidable (strLeB b.date a.date = true))

instance : IsTotal MealEntry dateGe :=
  ⟨fun a b => lexLe_total b.date.toList a.date.toList⟩

instance : IsTrans MealEntry dateGe :=
  ⟨fun _ _ _ h h' => lexLe_trans _ _ _ h' h⟩

/-- `UserPreferences.get_meal_history(limit)`: stable sort descending by the
`date` string, then truncate. -/
def get_meal_history (limit : Nat) (st : PrefState) : List MealEntry :=
  (st.meal_history.insertionSort dateGe).take limit

/-- An ingredient-preference operation (the two mutators of claim C5). -/
inductive IngOp where
  | fav : String → IngOp
  | dis : String → IngOp
deriving DecidableEq, Repr

/-- Apply one ingredient-preference operation. -/
def applyIngOp (st : PrefState) : IngOp → PrefState
  | .fav s => add_favorite_ingredient s st
  | .dis s => add_disliked_ingredient s st

/-- Run a sequence of ingredient-preference operations from the empty
document. -/
def runIngOps (ops : List IngOp) : PrefState :=
  ops.foldl applyIngOp emptyPrefs

/-- A recipe-feedback operation (the two mutators of claims C6 and C7). -/
inductive RecOp where
  | like : String → List String → String → RecOp
  | dislike : String → List String → String → RecOp
deriving DecidableEq, Repr

/-- The recipe title an operation records. -/
def RecOp.title : RecOp → String
  | .like t _ _ => t
  | .dislike t _ _ => t

/-- Whether the operation targets the liked list. -/
def RecOp.isLike : RecOp → Bool
  | .like _ _ _ => true
  | .dislike _ _ _ => false

/-- Apply one recipe-feedback operation. -/
def applyRecOp (st : PrefState) : RecOp → PrefState
  | .like t ings ts => add_liked_recipe t ings ts st
  | .dislike t ings ts => add_disliked_recipe t ings ts st

/-- Run a sequence of recipe-feedback operations from the empty document. -/
def runRecOps (ops : List RecOp) : PrefState :=
  ops.foldl applyRecOp emptyPrefs

/-- Apply one recipe-feedback operation and also report the id it assigned,
tagged with the list it was appended to (`true` = liked). -/
def applyRecOpLog (st : PrefState) (op : RecOp) : PrefState × (Bool × Int) :=
  match op with
  | .like _ _ _ => (applyRecOp st op, (true, (st.liked_recipes.length : Int) + 1))
  | .dislike _ _ _ => (applyRecOp st op, (false, (st.disliked_recipes.length : Int) + 1))

/-- Run a sequence of recipe-feedback operations, logging every assigned id
in operation order. -/
def runRecOpsLog : List RecOp → PrefState → PrefState × List (Bool × Int)
  | [], st => (st, [])
  | op :: ops, st =>
    let (st', entry) := applyRecOpLog st op
    let (stFin, log) := runRecOpsLog ops st'
    (stFin, entry :: log)

/-- The ids logged for one of the two lists, in assignment order. -/
def idsFor (isLiked : Bool) (log : List (Bool × Int)) : List Int :=
  log.filterMap (fun p => if p.1 = isLiked then some p.2 else none)

/-- An expiration-store operation (the two mutators of claim C1; an add
carries the wall-clock day of the call). -/
inductive TrOp where
  | addO : Date → String → ExpiryInput → String → String → TrOp
  | removeO : Int → TrOp
deriving DecidableEq, Repr

/-- Whether the operation is a removal. -/
def TrOp.isRemove : TrOp → Bool
  | .addO _ _ _ _ _ => false
  | .removeO _ => true

/-- Apply one expiration-store operation (the boolean result of `add_item`
is discarded, as callers that mutate state do). -/
def applyTrOp (st : TrackerState) : TrOp → TrackerState
  | .addO today n e q c => (add_item today n e q c st).2
  | .removeO i => remove_item i st

/-- Run a sequence of expiration-store operations from the empty document. -/
def runTrOps (ops : List TrOp) : TrackerState :=
  ops.foldl applyTrOp emptyTracker

/-!
Heap-level model of the two read queries, for the frame property (claim
C10).  A Python list of dicts is a list of references into a heap; the heap
grows by one cell for every `item.copy()`, and the subsequent
`item_with_days[...] = n` assignment mutates the fresh cell in place.  If
the source omitted the `.copy()`, the mutation would hit the stored cell
and the frame theorem would fail.
-/

/-- A heap cell: one Python dict.  Stored items have no day-count key; the
copies built by the queries gain exactly one of them. -/
structure HeapObj where
  item : Item
  days_left : Option Int
  days_expired : Option Int
deriving DecidableEq, Repr

/-- One iteration of the `get_expiring_soon` loop over the stored
references: read the dict, try to parse, and on inclusion allocate a copy
and mutate the copy. -/
def expiringStepH (today : Date) (days : Int) (acc : List HeapObj × List Nat)
    (r : Nat) : List HeapObj × List Nat :=
  let (heap, out) := acc
  match heap[r]? with
  | none => (heap, out)
  | some obj =>
    match obj.item.expiry_date with
    | .strV s =>
      match fromIso s with
      | some d =>
        let dl := dateDiff d today
        if 0 ≤ dl ∧ dl ≤ days then
          let addr := heap.length
          let heap1 := heap ++ [obj]
          let heap2 := heap1.set addr { obj with days_left := some dl }
          (heap2, out ++ [addr])
        else (heap, out)
      | none => (heap, out)
    | .intV _ => (heap, out)

/-- One iteration of the `get_expired` loop. -/
def expiredStepH (today : Date) (acc : List HeapObj × List Nat)
    (r : Nat) : List HeapObj × List Nat :=
  let (heap, out) := acc
  match heap[r]? with
  | none => (heap, out)
  | some obj =>
    match obj.item.expiry_date with
    | .strV s =>
      match fromIso s with
      | some d =>
        let de := dateDiff today d
        if de > 0 then
          let addr := heap.length
          let heap1 := heap ++ [obj]
          let heap2 := heap1.set addr { obj with days_expired := some de }
          (heap2, out ++ [addr])
        else (heap, out)
      | none => (heap, out)
    | .intV _ => (heap, out)

/-- Insert a reference into a reference list sorted by `le`. -/
def ordInsRef (le : Nat → Nat → Bool) (x : Nat) : List Nat → List Nat
  | [] => [x]
  | y :: ys => if le x y then x :: y :: ys else y :: ordInsRef le x ys

/-- Stable insertion sort on references (model of the final `sorted` call;
it permutes references and never touches the heap). -/
def insortRef (le : Nat → Nat → Bool) : List Nat → List Nat
  | [] => []
  | x :: xs => ordInsRef le x (insortRef le xs)

/-- The `days_left` key of the dict at reference `r` (0 if absent). -/
def refDaysLeft (heap : List HeapObj) (r : Nat) : Int :=
  match heap[r]? with
  | some obj => obj.days_left.getD 0
  | none => 0

/-- The `days_expired` key of the dict at reference `r` (0 if absent). -/
def refDaysExpired (heap : List HeapObj) (r : Nat) : Int :=
  match heap[r]? with
  | some obj => obj.days_expired.getD 0
  | none => 0

/-- Heap-level `get_expiring_soon(days)`: returns the heap after the call
and the references of the returned (copied) dicts, sorted ascending by
`days_left`. -/
def get_expiring_soonH (today : Date) (days : Int) (heap : List HeapObj)
    (itemRefs : List Nat) : List HeapObj × List Nat :=
  let res := itemRefs.foldl (expiringStepH today days) (heap, [])
  (res.1, insortRef (fun a b => refDaysLeft res.1 a ≤ refDaysLeft res.1 b) res.2)

/-- Heap-level `get_expired()`: references sorted descending by
`days_expired`. -/
def get_expiredH (today : Date) (heap : List HeapObj)
    (itemRefs : List Nat) : List HeapObj × List Nat :=
  let res := itemRefs.foldl (expiredStepH today) (heap, [])
  (res.1, insortRef (fun a b => refDaysExpired res.1 b ≤ refDaysExpired res.1 a) res.2)

/-!  ## Theorems  -/

/-- C2: `add_item` fails and leaves the document unchanged exactly when the
name is empty, the expiry argument is falsy, or a string expiry does not
parse as `YYYY-MM-DD`; on any valid input it succeeds and appends exactly
one item whose stored `expiry_date` is the ISO normalization of the input
date. -/
theorem add_item_validation (today : Date) (name quantity category : String)
    (expiry : ExpiryInput) (st : TrackerState) :
    ((add_item today name expiry quantity category st).1 = false
        ↔ name = "" ∨ expiry.isFalsy = true ∨ expiry.normalize = none)
    ∧ ((add_item today name expiry quantity category st).1 = false →
        (add_item today name expiry quantity category st).2 = st)
    ∧ (∀ d : Date, name ≠ "" → expiry.isFalsy = false → expiry.normalize = some d →
        (add_item today name expiry quantity category st).1 = true ∧
        (add_item today name expiry quantity category st).2.items
          = st.items ++ [⟨.intV ((st.items.length : Int) + 1), .strV name,
              .strV d.iso, .strV quantity, .strV category, .strV today.iso⟩]) := by
  by_cases hn : name = ""
  · simp [add_item, hn]
  · by_cases hf : expiry.isFalsy
    · refine ⟨by simp [add_item, hn, hf], by simp [add_item, hn, hf], ?_⟩
      intro d _ hf' _
      rw [hf] at hf'
      exact absurd hf' (by simp)
    · cases hnorm : expiry.normalize with
      | none => simp [add_item, hn, hf, hnorm]
      | some d =>
        refine ⟨by simp [add_item, hn, hf, hnorm], by simp [add_item, hn, hf, hnorm], ?_⟩
        intro d' _ _ hnorm'
        have hd : d = d' := Option.some.inj hnorm'
        subst hd
        simp [add_item, hn, hf, hnorm]

/-- Witness for C2: both failure (the spec's `"not-a-date"` scenario) and a
successful normalized append at concrete inputs. -/
theorem add_item_validation_witness :
    (add_item ⟨2024, 1, 1⟩ "milk" (.strE "not-a-date") "" "" emptyTracker).1 = false
    ∧ (add_item ⟨2024, 1, 1⟩ "milk" (.strE "not-a-date") "" "" emptyTracker).2 = emptyTracker
    ∧ (add_item ⟨2024, 1, 1⟩ "milk" (.strE "2024-1-7") "1" "Dairy" emptyTracker).2.items
        = [⟨.intV 1, .strV "milk", .strV "2024-01-07", .strV "1", .strV "Dairy",
            .strV "2024-01-01"⟩] := by
  have h1 := add_item_validation ⟨2024, 1, 1⟩ "milk" "" "" (.strE "not-a-date") emptyTracker
  have h2 := add_item_validation ⟨2024, 1, 1⟩ "milk" "1" "Dairy" (.strE "2024-1-7") emptyTracker
  refine ⟨h1.1.mpr (Or.inr (Or.inr (by decide))), h1.2.1 (h1.1.mpr (Or.inr (Or.inr (by decide)))), ?_⟩
  have := (h2.2.2 ⟨2024, 1, 7⟩ (by decide) (by decide) (by decide)).2
  simpa using this

/-- Case analysis of `add_item`: it either fails leaving the document
untouched, or appends exactly the new item built from the normalized
date, with `id = len(items) + 1`. -/
theorem add_item_cases (today : Date) (name quantity category : String)
    (expiry : ExpiryInput) (st : TrackerState) :
    ((add_item today name expiry quantity category st).1 = false
      ∧ (add_item today name expiry quantity category st).2 = st)
    ∨ (∃ d : Date, expiry.normalize = some d
        ∧ (add_item today name expiry quantity category st).1 = true
        ∧ (add_item today name expiry quantity category st).2.items
          = st.items ++ [⟨.intV ((st.items.length : Int) + 1), .strV name,
              .strV d.iso, .strV quantity, .strV category, .strV today.iso⟩]
        ∧ (add_item today name expiry quantity category st).2.notifications
          = st.notifications) := by
  by_cases hn : name = ""
  · exact Or.inl (by simp [add_item, hn])
  · by_cases hf : expiry.isFalsy
    · exact Or.inl (by simp [add_item, hn, hf])
    · cases hnorm : expiry.normalize with
      | none => exact Or.inl (by simp [add_item, hn, hf, hnorm])
      | some d => exact Or.inr ⟨d, rfl, by simp [add_item, hn, hf, hnorm],
          by simp [add_item, hn, hf, hnorm], by simp [add_item, hn, hf, hnorm]⟩

/-- The id sequence `[1, 2, ..., n]` as stored `Val`s. -/
def idVals (n : Nat) : List Val :=
  (List.range' 1 n).map (fun k => Val.intV (Int.ofNat k))

theorem idVals_concat (n : Nat) : idVals (n + 1) = idVals n ++ [Val.intV ((n : Int) + 1)] := by
  unfold idVals
  rw [List.range'_concat]
  simp [Int.add_comm]

theorem idVals_nodup (n : Nat) : (idVals n).Nodup := by
  unfold idVals List.Nodup
  refine List.pairwise_map.mpr ?_
  refine List.Pairwise.imp ?_ (List.nodup_range' 1 n)
  intro a b hab h
  exact hab (Int.ofNat.inj (Val.intV.inj h))

/-- In a state reached from the empty document by `add_item` alone, the
stored ids are exactly `[1, ..., n]`. -/
theorem addOnly_ids (ops : List TrOp) (st : TrackerState)
    (hnr : ∀ op ∈ ops, op.isRemove = false)
    (hst : st.items.map Item.id = idVals st.items.length) :
    (ops.foldl applyTrOp st).items.map Item.id
      = idVals (ops.foldl applyTrOp st).items.length := by
  induction ops generalizing st with
  | nil => exact hst
  | cons op ops ih =>
    cases op with
    | removeO i =>
      exact absurd (hnr _ (List.mem_cons_self _ _)) (by simp [TrOp.isRemove])
    | addO td n e q c =>
      rw [List.foldl_cons]
      refine ih _ (fun op h => hnr op (List.mem_cons_of_mem _ h)) ?_
      rcases add_item_cases td n q c e st with ⟨_, h2⟩ | ⟨d, _, _, hitems, _⟩
      · simpa [applyTrOp, h2] using hst
      · simp only [applyTrOp, hitems, List.map_append, List.length_append, hst]
        simp [idVals_concat]

/-- C1 (counterexample): after `add "a"`, `add "b"`, `remove 1`, `add "c"`
the document holds two items both carrying id 2 — the ids are not pairwise
distinct, refuting the claim as stated. -/
theorem tracker_ids_counterexample :
    (runTrOps [.addO ⟨2024, 1, 1⟩ "a" (.dateE ⟨2024, 1, 2⟩) "" "",
        .addO ⟨2024, 1, 1⟩ "b" (.dateE ⟨2024, 1, 3⟩) "" "",
        .removeO 1,
        .addO ⟨2024, 1, 1⟩ "c" (.dateE ⟨2024, 1, 4⟩) "" ""]).items.map Item.id
      = [Val.intV 2, Val.intV 2]
    ∧ ¬ ((runTrOps [.addO ⟨2024, 1, 1⟩ "a" (.dateE ⟨2024, 1, 2⟩) "" "",
        .addO ⟨2024, 1, 1⟩ "b" (.dateE ⟨2024, 1, 3⟩) "" "",
        .removeO 1,
        .addO ⟨2024, 1, 1⟩ "c" (.dateE ⟨2024, 1, 4⟩) "" ""]).items.map Item.id).Pairwise (· ≠ ·) := by
  constructor
  · rfl
  · decide

/-- C1 (amended): every successful `add_item` assigns
`id = len(existing items) + 1`; in any sequence of operations from the
empty document that contains no removal the stored ids are exactly
`[1, ..., n]` and hence pairwise distinct.  (With removals the running
total does decrement — `id = len + 1` — so ids can repeat, see the
counterexample.) -/
theorem tracker_ids_amended (ops : List TrOp)
    (hnr : ∀ op ∈ ops, op.isRemove = false) :
    ((runTrOps ops).items.map Item.id = idVals (runTrOps ops).items.length
      ∧ ((runTrOps ops).items.map Item.id).Pairwise (· ≠ ·))
    ∧ (∀ (today : Date) (name quantity category : String) (expiry : ExpiryInput)
        (st : TrackerState),
        (add_item today name expiry quantity category st).1 = true →
        (add_item today name expiry quantity category st).2.items.map Item.id
          = st.items.map Item.id ++ [Val.intV ((st.items.length : Int) + 1)]) := by
  constructor
  · have h : (runTrOps ops).items.map Item.id = idVals (runTrOps ops).items.length :=
      addOnly_ids ops emptyTracker hnr (by simp [emptyTracker, idVals])
    exact ⟨h, by rw [h]; exact idVals_nodup _⟩
  · intro today name quantity category expiry st htrue
    rcases add_item_cases today name quantity category expiry st with ⟨h1, _⟩ | ⟨d, _, _, hitems, _⟩
    · rw [htrue] at h1
      exact absurd h1 (by simp)
    · simp [hitems]

/-- Witness for C1 (amended): three adds from the empty document yield ids
`[1, 2, 3]`, pairwise distinct. -/
theorem tracker_ids_amended_witness :
    (runTrOps [.addO ⟨2024, 1, 1⟩ "a" (.dateE ⟨2024, 1, 2⟩) "" "",
        .addO ⟨2024, 1, 1⟩ "b" (.dateE ⟨2024, 1, 3⟩) "" "",
        .addO ⟨2024, 1, 1⟩ "c" (.dateE ⟨2024, 1, 4⟩) "" ""]).items.map Item.id
      = idVals 3
    ∧ ((runTrOps [.addO ⟨2024, 1, 1⟩ "a" (.dateE ⟨2024, 1, 2⟩) "" "",
        .addO ⟨2024, 1, 1⟩ "b" (.dateE ⟨2024, 1, 3⟩) "" "",
        .addO ⟨2024, 1, 1⟩ "c" (.dateE ⟨2024, 1, 4⟩) "" ""]).items.map Item.id).Pairwise (· ≠ ·) := by
  have h := (tracker_ids_amended
    [.addO ⟨2024, 1, 1⟩ "a" (.dateE ⟨2024, 1, 2⟩) "" "",
     .addO ⟨2024, 1, 1⟩ "b" (.dateE ⟨2024, 1, 3⟩) "" "",
     .addO ⟨2024, 1, 1⟩ "c" (.dateE ⟨2024, 1, 4⟩) "" ""] (by decide)).1
  exact ⟨h.1.trans (by rfl), h.2⟩

/-- The C5 invariant: both ingredient sets duplicate-free and disjoint. -/
def IngInv (st : PrefState) : Prop :=
  st.favorites.Nodup ∧ st.dislikes.Nodup ∧ ∀ x ∈ st.favorites, x ∉ st.dislikes

/-- One ingredient operation preserves the C5 invariant. -/
theorem ingInv_step (st : PrefState) (op : IngOp) (h : IngInv st) :
    IngInv (applyIngOp st op) := by
  obtain ⟨hfav, hdis, hdisj⟩ := h
  cases op with
  | fav s =>
    by_cases hs : s ∈ st.favorites
    · simpa [applyIngOp, add_favorite_ingredient, hs] using ⟨hfav, hdis, hdisj⟩
    · refine ⟨?_, ?_, ?_⟩
      · simp [applyIngOp, add_favorite_ingredient, hs, List.nodup_append, hfav]
      · by_cases hd : s ∈ st.dislikes
        · simpa [applyIngOp, add_favorite_ingredient, hs, hd] using hdis.erase s
        · simpa [applyIngOp, add_favorite_ingredient, hs, hd] using hdis
      · intro x hx
        simp [applyIngOp, add_favorite_ingredient, hs] at hx ⊢
        rcases hx with hx | rfl
        · by_cases hd : s ∈ st.dislikes
          · rw [if_pos hd]
            exact fun hmem => hdisj x hx (List.mem_of_mem_erase hmem)
          · rw [if_neg hd]
            exact hdisj x hx
        · by_cases hd : x ∈ st.dislikes
          · rw [if_pos hd]
            exact hdis.not_mem_erase
          · rw [if_neg hd]
            exact hd
  | dis s =>
    by_cases hs : s ∈ st.dislikes
    · simpa [applyIngOp, add_disliked_ingredient, hs] using ⟨hfav, hdis, hdisj⟩
    · refine ⟨?_, ?_, ?_⟩
      · by_cases hf : s ∈ st.favorites
        · simpa [applyIngOp, add_disliked_ingredient, hs, hf] using hfav.erase s
        · simpa [applyIngOp, add_disliked_ingredient, hs, hf] using hfav
      · simp [applyIngOp, add_disliked_ingredient, hs, List.nodup_append, hdis]
      · intro x hx
        simp [applyIngOp, add_disliked_ingredient, hs] at hx ⊢
        by_cases hf : s ∈ st.favorites
        · rw [if_pos hf] at hx
          have hxf : x ∈ st.favorites := List.mem_of_mem_erase hx
          have hxs : x ≠ s := ((hfav.mem_erase_iff).mp hx).1
          exact ⟨hdisj x hxf, hxs⟩
        · rw [if_neg hf] at hx
          exact ⟨hdisj x hx, fun hh => hf (hh ▸ hx)⟩

/-- The C5 invariant holds in every state reachable by ingredient
operations. -/
theorem ingInv_run (ops : List IngOp) (st : PrefState) (h : IngInv st) :
    IngInv (ops.foldl applyIngOp st) := by
  induction ops generalizing st with
  | nil => exact h
  | cons op ops ih => exact ih _ (ingInv_step st op h)

/-- C5: from the empty document, the favorites and dislikes sets stay
duplicate-free and disjoint; in any reachable state, adding an ingredient
to one set leaves it absent from the other and present in the target, and
adding an ingredient already in the target set changes nothing. -/
theorem ingredient_sets_disjoint (ops : List IngOp) :
    IngInv (runIngOps ops)
    ∧ (∀ st, IngInv st → ∀ x,
        x ∉ (add_favorite_ingredient x st).dislikes
        ∧ x ∈ (add_favorite_ingredient x st).favorites
        ∧ x ∉ (add_disliked_ingredient x st).favorites
        ∧ x ∈ (add_disliked_ingredient x st).dislikes)
    ∧ (∀ st x, x ∈ st.favorites → add_favorite_ingredient x st = st)
    ∧ (∀ st x, x ∈ st.dislikes → add_disliked_ingredient x st = st) := by
  refine ⟨ingInv_run ops emptyPrefs ⟨List.nodup_nil, List.nodup_nil, by simp [emptyPrefs]⟩,
    ?_, ?_, ?_⟩
  · intro st hst x
    obtain ⟨hfav, hdis, hdisj⟩ := hst
    refine ⟨?_, ?_, ?_, ?_⟩
    · by_cases hx : x ∈ st.favorites
      · simpa [add_favorite_ingredient, hx] using hdisj x hx
      · by_cases hd : x ∈ st.dislikes
        · simp [add_favorite_ingredient, hx, hd, hdis.not_mem_erase]
        · simp [add_favorite_ingredient, hx, hd]
    · by_cases hx : x ∈ st.favorites <;> simp [add_favorite_ingredient, hx]
    · by_cases hx : x ∈ st.dislikes
      · simpa [add_disliked_ingredient, hx] using fun hf => hdisj x hf hx
      · by_cases hf : x ∈ st.favorites
        · simp [add_disliked_ingredient, hx, hf, hfav.not_mem_erase]
        · simp [add_disliked_ingredient, hx, hf]
    · by_cases hx : x ∈ st.dislikes <;> simp [add_disliked_ingredient, hx]
  · intro st x hx
    simp [add_favorite_ingredient, hx]
  · intro st x hx
    simp [add_disliked_ingredient, hx]

/-- Witness for C5: the spec's basil scenario — dislike then favorite
leaves basil only in favorites. -/
theorem ingredient_sets_disjoint_witness :
    "basil" ∉ (add_favorite_ingredient "basil" (runIngOps [.dis "basil"])).dislikes
    ∧ "basil" ∈ (add_favorite_ingredient "basil" (runIngOps [.dis "basil"])).favorites := by
  have h := ingredient_sets_disjoint [.dis "basil"]
  exact ⟨(h.2.1 _ h.1 "basil").1, (h.2.1 _ h.1 "basil").2.1⟩

/-- The C6 invariant: no title occurs in both recipe lists. -/
def RecInv (st : PrefState) : Prop :=
  ∀ t, ¬(t ∈ st.liked_recipes.map RecipeEntry.title
      ∧ t ∈ st.disliked_recipes.map RecipeEntry.title)

/-- One recipe-feedback operation preserves the C6 invariant. -/
theorem recInv_step (st : PrefState) (op : RecOp) (h : RecInv st) :
    RecInv (applyRecOp st op) := by
  cases op with
  | like t ings ts =>
    intro u hu
    obtain ⟨hu1, hu2⟩ := hu
    simp [applyRecOp, add_liked_recipe] at hu1 hu2
    rcases hu2 with ⟨r, ⟨hrmem, hrne⟩, hrtitle⟩
    rcases hu1 with ⟨a, hamem, hatitle⟩ | rfl
    · exact h u ⟨List.mem_map.mpr ⟨a, hamem, hatitle⟩, List.mem_map.mpr ⟨r, hrmem, hrtitle⟩⟩
    · exact hrne hrtitle
  | dislike t ings ts =>
    intro u hu
    obtain ⟨hu1, hu2⟩ := hu
    simp [applyRecOp, add_disliked_recipe] at hu1 hu2
    rcases hu1 with ⟨r, ⟨hrmem, hrne⟩, hrtitle⟩
    rcases hu2 with ⟨a, hamem, hatitle⟩ | rfl
    · exact h u ⟨List.mem_map.mpr ⟨r, hrmem, hrtitle⟩, List.mem_map.mpr ⟨a, hamem, hatitle⟩⟩
    · exact hrne hrtitle

/-- The C6 invariant holds in every reachable state. -/
theorem recInv_run (ops : List RecOp) (st : PrefState) (h : RecInv st) :
    RecInv (ops.foldl applyRecOp st) := by
  induction ops generalizing st with
  | nil => exact h
  | cons op ops ih => exact ih _ (recInv_step st op h)

/-- C6: from the empty document no recipe title is ever present in both
the liked and the disliked list; moreover recording a recipe removes every
same-titled entry from the opposite list and leaves the title present in
the target list (so like-then-dislike leaves the title only in the
disliked list). -/
theorem recipe_lists_exclusive (ops : List RecOp) :
    (∀ t, ¬(t ∈ (runRecOps ops).liked_recipes.map RecipeEntry.title
        ∧ t ∈ (runRecOps ops).disliked_recipes.map RecipeEntry.title))
    ∧ (∀ (st : PrefState) (t : String) (ings : List String) (ts : String),
        (∀ r ∈ (add_liked_recipe t ings ts st).disliked_recipes, r.title ≠ t)
        ∧ (∃ r ∈ (add_liked_recipe t ings ts st).liked_recipes, r.title = t)
        ∧ (∀ r ∈ (add_disliked_recipe t ings ts st).liked_recipes, r.title ≠ t)
        ∧ (∃ r ∈ (add_disliked_recipe t ings ts st).disliked_recipes, r.title = t)) := by
  constructor
  · exact recInv_run ops emptyPrefs (by intro t ht; simp [emptyPrefs] at ht)
  · intro st t ings ts
    refine ⟨?_, ?_, ?_, ?_⟩
    · intro r hr
      have := List.of_mem_filter hr
      simpa using this
    · refine ⟨⟨(st.liked_recipes.length : Int) + 1, t, ings, ts⟩, ?_, rfl⟩
      simp [add_liked_recipe]
    · intro r hr
      have := List.of_mem_filter hr
      simpa using this
    · refine ⟨⟨(st.disliked_recipes.length : Int) + 1, t, ings, ts⟩, ?_, rfl⟩
      simp [add_disliked_recipe]

/-- Witness for C6: the spec's Soup scenario — like then dislike leaves
"Soup" absent from at least one list (here: not in both). -/
theorem recipe_lists_exclusive_witness :
    ¬("Soup" ∈ (runRecOps [.like "Soup" [] "t1", .dislike "Soup" [] "t2"]).liked_recipes.map
          RecipeEntry.title
      ∧ "Soup" ∈ (runRecOps [.like "Soup" [] "t1", .dislike "Soup" [] "t2"]).disliked_recipes.map
          RecipeEntry.title) :=
  (recipe_lists_exclusive [.like "Soup" [] "t1", .dislike "Soup" [] "t2"]).1 "Soup"

/-- All recipe titles stored in a state, either list. -/
def stTitles (st : PrefState) : List String :=
  st.liked_recipes.map RecipeEntry.title ++ st.disliked_recipes.map RecipeEntry.title

/-- When every operation records a fresh title (none occurring in the
state or twice in the sequence), each list's log of assigned ids is the
contiguous run continuing from its current length. -/
theorem runRecOpsLog_ids (ops : List RecOp) (st : PrefState)
    (hnd : (ops.map RecOp.title).Nodup)
    (hfresh : ∀ op ∈ ops, op.title ∉ stTitles st) :
    idsFor true (runRecOpsLog ops st).2
        = (List.range' (st.liked_recipes.length + 1) (ops.countP RecOp.isLike)).map Int.ofNat
    ∧ idsFor false (runRecOpsLog ops st).2
        = (List.range' (st.disliked_recipes.length + 1)
            (ops.countP (fun o => !o.isLike))).map Int.ofNat := by
  induction ops generalizing st with
  | nil => simp [runRecOpsLog, idsFor]
  | cons op ops ih =>
    have hnd2 : (∀ x ∈ ops, ¬x.title = op.title) ∧ (ops.map RecOp.title).Nodup := by
      simpa using hnd
    have hopfresh : op.title ∉ stTitles st := hfresh op (List.mem_cons_self _ _)
    have hsplit : ∀ op' ∈ ops, op'.title ∉ st.liked_recipes.map RecipeEntry.title
        ∧ op'.title ∉ st.disliked_recipes.map RecipeEntry.title := by
      intro op' hop'
      have h1 := hfresh op' (List.mem_cons_of_mem _ hop')
      constructor <;> intro hh <;> exact h1 (by simp [stTitles, hh])
    cases op with
    | like t ings ts =>
      have htd : t ∉ st.disliked_recipes.map RecipeEntry.title := by
        intro hmem
        exact hopfresh (by simp [stTitles, RecOp.title, hmem])
      have hfilterN : st.disliked_recipes.filter (fun r => !decide (r.title = t))
          = st.disliked_recipes := by
        refine List.filter_eq_self.mpr ?_
        intro r hr
        have hne : r.title ≠ t := fun he => htd (he ▸ List.mem_map_of_mem RecipeEntry.title hr)
        simp [hne]
      have hshape : stTitles (applyRecOp st (.like t ings ts))
          = (st.liked_recipes.map RecipeEntry.title ++ [t])
            ++ st.disliked_recipes.map RecipeEntry.title := by
        simp [stTitles, applyRecOp, add_liked_recipe, hfilterN]
      have hst' := ih (applyRecOp st (.like t ings ts)) hnd2.2 ?_
      · have hliked : (applyRecOp st (.like t ings ts)).liked_recipes.length
            = st.liked_recipes.length + 1 := by
          simp [applyRecOp, add_liked_recipe]
        have hdisl : (applyRecOp st (.like t ings ts)).disliked_recipes.length
            = st.disliked_recipes.length := by
          simp [applyRecOp, add_liked_recipe, hfilterN]
        constructor
        · show ((st.liked_recipes.length : Int) + 1)
              :: idsFor true (runRecOpsLog ops (applyRecOp st (.like t ings ts))).2 = _
          rw [hst'.1, hliked]
          have hc : (RecOp.like t ings ts :: ops).countP RecOp.isLike
              = ops.countP RecOp.isLike + 1 := by
            simp [List.countP_cons, RecOp.isLike]
          rw [hc, List.range'_succ]
          simp [Int.ofNat_succ]
        · show idsFor false (runRecOpsLog ops (applyRecOp st (.like t ings ts))).2 = _
          rw [hst'.2, hdisl]
          have hc : (RecOp.like t ings ts :: ops).countP (fun o => !o.isLike)
              = ops.countP (fun o => !o.isLike) := by
            simp [List.countP_cons, RecOp.isLike]
          rw [hc]
      · intro op' hop'
        have h2 : op'.title ≠ t := fun he => hnd2.1 op' hop' (by simpa [RecOp.title] using he)
        rw [hshape]
        intro hmem
        rcases List.mem_append.mp hmem with h | h
        · rcases List.mem_append.mp h with h | h
          · exact (hsplit op' hop').1 h
          · exact h2 (List.mem_singleton.mp h)
        · exact (hsplit op' hop').2 h
    | dislike t ings ts =>
      have htl : t ∉ st.liked_recipes.map RecipeEntry.title := by
        intro hmem
        exact hopfresh (by simp [stTitles, RecOp.title, hmem])
      have hfilterN : st.liked_recipes.filter (fun r => !decide (r.title = t))
          = st.liked_recipes := by
        refine List.filter_eq_self.mpr ?_
        intro r hr
        have hne : r.title ≠ t := fun he => htl (he ▸ List.mem_map_of_mem RecipeEntry.title hr)
        simp [hne]
      have hshape : stTitles (applyRecOp st (.dislike t ings ts))
          = st.liked_recipes.map RecipeEntry.title
            ++ (st.disliked_recipes.map RecipeEntry.title ++ [t]) := by
        simp [stTitles, applyRecOp, add_disliked_recipe, hfilterN]
      have hst' := ih (applyRecOp st (.dislike t ings ts)) hnd2.2 ?_
      · have hliked : (applyRecOp st (.dislike t ings ts)).liked_recipes.length
            = st.liked_recipes.length := by
          simp [applyRecOp, add_disliked_recipe, hfilterN]
        have hdisl : (applyRecOp st (.dislike t ings ts)).disliked_recipes.length
            = st.disliked_recipes.length + 1 := by
          simp [applyRecOp, add_disliked_recipe]
        constructor
        · show idsFor true (runRecOpsLog ops (applyRecOp st (.dislike t ings ts))).2 = _
          rw [hst'.1, hliked]
          have hc : (RecOp.dislike t ings ts :: ops).countP RecOp.isLike
              = ops.countP RecOp.isLike := by
            simp [List.countP_cons, RecOp.isLike]
          rw [hc]
        · show ((st.disliked_recipes.length : Int) + 1)
              :: idsFor false (runRecOpsLog ops (applyRecOp st (.dislike t ings ts))).2 = _
          rw [hst'.2, hdisl]
          have hc : (RecOp.dislike t ings ts :: ops).countP (fun o => !o.isLike)
              = ops.countP (fun o => !o.isLike) + 1 := by
            simp [List.countP_cons, RecOp.isLike]
          rw [hc, List.range'_succ]
          simp [Int.ofNat_succ]
      · intro op' hop'
        have h2 : op'.title ≠ t := fun he => hnd2.1 op' hop' (by simpa [RecOp.title] using he)
        rw [hshape]
        intro hmem
        rcases List.mem_append.mp hmem with h | h
        · exact (hsplit op' hop').1 h
        · rcases List.mem_append.mp h with h | h
          · exact (hsplit op' hop').2 h
          · exact h2 (List.mem_singleton.mp h)

/-- The image of a strictly increasing run of naturals is a strictly
increasing integer list. -/
theorem chain_lt_range'_ofNat (s n : Nat) :
    ((List.range' s n).map Int.ofNat).Chain' (· < ·) := by
  refine List.Pairwise.chain' ?_
  refine List.Pairwise.map Int.ofNat ?_ (List.pairwise_lt_range' s n)
  intro a b hab
  exact Int.ofNat_lt.mpr hab

/-- C7 (counterexample): in the sequence dislike "A", dislike "B",
like "A", dislike "C" from the empty document, the ids assigned by the
successive additions to the disliked list are 1, 2, 2 — not strictly
increasing, refuting the claim as stated (the like of "A" removed an entry
from the disliked list, shrinking `len(disliked_recipes)`). -/
theorem recipe_ids_counterexample :
    idsFor false (runRecOpsLog [.dislike "A" [] "t1", .dislike "B" [] "t2",
        .like "A" [] "t3", .dislike "C" [] "t4"] emptyPrefs).2 = [1, 2, 2]
    ∧ ¬ (idsFor false (runRecOpsLog [.dislike "A" [] "t1", .dislike "B" [] "t2",
        .like "A" [] "t3", .dislike "C" [] "t4"] emptyPrefs).2).Chain' (· < ·) := by
  constructor
  · rfl
  · intro hch
    have hl : idsFor false (runRecOpsLog [.dislike "A" [] "t1", .dislike "B" [] "t2",
        .like "A" [] "t3", .dislike "C" [] "t4"] emptyPrefs).2 = [1, 2, 2] := rfl
    rw [hl] at hch
    exact lt_irrefl (2 : Int) (List.chain'_cons.mp (List.chain'_cons.mp hch).2).1

/-- C7 (amended): each addition receives `id = len(target list) + 1`; the
per-list id sequences are `1, 2, ...` (in particular strictly increasing)
provided no recorded title repeats across the sequence — an addition of an
already-recorded title to the opposite list shrinks the target list and
breaks monotonicity. -/
theorem recipe_ids_amended (ops : List RecOp)
    (hnd : (ops.map RecOp.title).Nodup) :
    (idsFor true (runRecOpsLog ops emptyPrefs).2
        = (List.range' 1 (ops.countP RecOp.isLike)).map Int.ofNat
      ∧ idsFor false (runRecOpsLog ops emptyPrefs).2
        = (List.range' 1 (ops.countP (fun o => !o.isLike))).map Int.ofNat)
    ∧ ((idsFor true (runRecOpsLog ops emptyPrefs).2).Chain' (· < ·)
      ∧ (idsFor false (runRecOpsLog ops emptyPrefs).2).Chain' (· < ·))
    ∧ (∀ (st : PrefState) (t : String) (ings : List String) (ts : String),
        (applyRecOpLog st (.like t ings ts)).2 = (true, (st.liked_recipes.length : Int) + 1)
        ∧ (applyRecOpLog st (.dislike t ings ts)).2
            = (false, (st.disliked_recipes.length : Int) + 1)) := by
  have h := runRecOpsLog_ids ops emptyPrefs hnd
    (by intro op hop; simp [stTitles, emptyPrefs])
  refine ⟨⟨h.1, h.2⟩, ⟨?_, ?_⟩, ?_⟩
  · rw [h.1]
    exact chain_lt_range'_ofNat _ _
  · rw [h.2]
    exact chain_lt_range'_ofNat _ _
  · intro st t ings ts
    exact ⟨rfl, rfl⟩

/-- Witness for C7 (amended): three additions with distinct titles receive
liked ids 1, 2 and disliked id 1. -/
theorem recipe_ids_amended_witness :
    idsFor true (runRecOpsLog [.like "A" [] "x", .dislike "B" [] "y", .like "C" [] "z"]
        emptyPrefs).2 = [1, 2]
    ∧ idsFor false (runRecOpsLog [.like "A" [] "x", .dislike "B" [] "y", .like "C" [] "z"]
        emptyPrefs).2 = [1] := by
  have h := recipe_ids_amended [.like "A" [] "x", .dislike "B" [] "y", .like "C" [] "z"]
    (by decide)
  exact ⟨h.1.1.trans (by rfl), h.1.2.trans (by rfl)⟩

/-- Characterization of one `get_expiring_soon` loop iteration. -/
theorem expiringEntry_some_iff (today : Date) (days : Int) (it : Item) (e : DatedItem) :
    expiringEntry today days it = some e
      ↔ ∃ s d, it.expiry_date = .strV s ∧ fromIso s = some d
          ∧ 0 ≤ dateDiff d today ∧ dateDiff d today ≤ days
          ∧ e = ⟨it, dateDiff d today⟩ := by
  cases hv : it.expiry_date with
  | intV n =>
    have key : expiringEntry today days it = none := by simp [expiringEntry, hv]
    rw [key]
    simp
  | strV s =>
    cases hp : fromIso s with
    | none =>
      have key : expiringEntry today days it = none := by simp [expiringEntry, hv, hp]
      rw [key]
      constructor
      · intro he
        exact absurd he (by simp)
      · rintro ⟨s', d', hs', hd', _, _, rfl⟩
        obtain rfl : s = s' := Val.strV.inj hs'
        rw [hp] at hd'
        exact absurd hd' (by simp)
    | some d =>
      have key : expiringEntry today days it
          = if 0 ≤ dateDiff d today ∧ dateDiff d today ≤ days
            then some ⟨it, dateDiff d today⟩ else none := by
        simp [expiringEntry, hv, hp]
      rw [key]
      by_cases hcond : 0 ≤ dateDiff d today ∧ dateDiff d today ≤ days
      · rw [if_pos hcond]
        constructor
        · intro he
          exact ⟨s, d, rfl, hp, hcond.1, hcond.2, (Option.some.inj he).symm⟩
        · rintro ⟨s', d', hs', hd', _, _, rfl⟩
          obtain rfl : s = s' := Val.strV.inj hs'
          rw [hp] at hd'
          obtain rfl : d = d' := Option.some.inj hd'
          rfl
      · rw [if_neg hcond]
        constructor
        · intro he
          exact absurd he (by simp)
        · rintro ⟨s', d', hs', hd', h0, hd, rfl⟩
          obtain rfl : s = s' := Val.strV.inj hs'
          rw [hp] at hd'
          obtain rfl : d = d' := Option.some.inj hd'
          exact absurd ⟨h0, hd⟩ hcond

/-- Characterization of one `get_expired` loop iteration. -/
theorem expiredEntry_some_iff (today : Date) (it : Item) (e : DatedItem) :
    expiredEntry today it = some e
      ↔ ∃ s d, it.expiry_date = .strV s ∧ fromIso s = some d
          ∧ 0 < dateDiff today d ∧ e = ⟨it, dateDiff today d⟩ := by
  cases hv : it.expiry_date with
  | intV n =>
    have key : expiredEntry today it = none := by simp [expiredEntry, hv]
    rw [key]
    simp
  | strV s =>
    cases hp : fromIso s with
    | none =>
      have key : expiredEntry today it = none := by simp [expiredEntry, hv, hp]
      rw [key]
      constructor
      · intro he
        exact absurd he (by simp)
      · rintro ⟨s', d', hs', hd', _, rfl⟩
        obtain rfl : s = s' := Val.strV.inj hs'
        rw [hp] at hd'
        exact absurd hd' (by simp)
    | some d =>
      have key : expiredEntry today it
          = if dateDiff today d > 0 then some ⟨it, dateDiff today d⟩ else none := by
        simp [expiredEntry, hv, hp]
      rw [key]
      by_cases hcond : dateDiff today d > 0
      · rw [if_pos hcond]
        constructor
        · intro he
          exact ⟨s, d, rfl, hp, hcond, (Option.some.inj he).symm⟩
        · rintro ⟨s', d', hs', hd', _, rfl⟩
          obtain rfl : s = s' := Val.strV.inj hs'
          rw [hp] at hd'
          obtain rfl : d = d' := Option.some.inj hd'
          rfl
      · rw [if_neg hcond]
        constructor
        · intro he
          exact absurd he (by simp)
        · rintro ⟨s', d', hs', hd', h0, rfl⟩
          obtain rfl : s = s' := Val.strV.inj hs'
          rw [hp] at hd'
          obtain rfl : d = d' := Option.some.inj hd'
          exact absurd h0 hcond

/-- C3: `get_expiring_soon(days)` returns, up to the stable ascending sort
by `days_left`, exactly the items whose stored expiry date parses and
satisfies `0 ≤ expiry − today ≤ days`, each paired with the computed
`days_left`; unparsable dates are skipped. -/
theorem get_expiring_soon_correct (today : Date) (days : Int) (st : TrackerState) :
    (get_expiring_soon today days st).Perm (st.items.filterMap (expiringEntry today days))
    ∧ (get_expiring_soon today days st).Sorted daysLe
    ∧ (∀ e, e ∈ get_expiring_soon today days st
        ↔ ∃ it ∈ st.items, expiringEntry today days it = some e)
    ∧ (∀ e ∈ get_expiring_soon today days st,
        ∃ s d, e.item.expiry_date = .strV s ∧ fromIso s = some d
          ∧ e.days = dateDiff d today ∧ 0 ≤ e.days ∧ e.days ≤ days) := by
  refine ⟨List.perm_insertionSort _ _, List.sorted_insertionSort _ _, ?_, ?_⟩
  · intro e
    rw [get_expiring_soon, List.mem_insertionSort, List.mem_filterMap]
  · intro e he
    rw [get_expiring_soon, List.mem_insertionSort, List.mem_filterMap] at he
    obtain ⟨it, hit, hsome⟩ := he
    obtain ⟨s, d, hv, hp, h0, hd, rfl⟩ := (expiringEntry_some_iff today days it e).mp hsome
    exact ⟨s, d, hv, hp, rfl, h0, hd⟩

/-- C4: `get_expired()` returns, up to the stable descending sort by
`days_expired`, exactly the items whose stored expiry date parses and
satisfies `today − expiry > 0`; an item whose expiry date equals today is
excluded from `get_expired` but included in `get_expiring_soon` with
`days_left = 0` (for any nonnegative window). -/
theorem get_expired_correct (today : Date) (st : TrackerState) :
    (get_expired today st).Perm (st.items.filterMap (expiredEntry today))
    ∧ (get_expired today st).Sorted daysGe
    ∧ (∀ e, e ∈ get_expired today st
        ↔ ∃ it ∈ st.items, expiredEntry today it = some e)
    ∧ (∀ e ∈ get_expired today st,
        ∃ s d, e.item.expiry_date = .strV s ∧ fromIso s = some d
          ∧ e.days = dateDiff today d ∧ 0 < e.days)
    ∧ (∀ it ∈ st.items, ∀ s, it.expiry_date = .strV s → fromIso s = some today →
        it ∉ (get_expired today st).map DatedItem.item
        ∧ (∀ days : Int, 0 ≤ days → (⟨it, 0⟩ : DatedItem) ∈ get_expiring_soon today days st)) := by
  have hmem : ∀ e, e ∈ get_expired today st
      ↔ ∃ it ∈ st.items, expiredEntry today it = some e := by
    intro e
    rw [get_expired, List.mem_insertionSort, List.mem_filterMap]
  refine ⟨List.perm_insertionSort _ _, List.sorted_insertionSort _ _, hmem, ?_, ?_⟩
  · intro e he
    obtain ⟨it, hit, hsome⟩ := (hmem e).mp he
    obtain ⟨s, d, hv, hp, h0, rfl⟩ := (expiredEntry_some_iff today it e).mp hsome
    exact ⟨s, d, hv, hp, rfl, h0⟩
  · intro it hit s hv hp
    constructor
    · intro hmap
      obtain ⟨e, he, heq⟩ := List.mem_map.mp hmap
      obtain ⟨it', hit', hsome⟩ := (hmem e).mp he
      obtain ⟨s', d', hv', hp', h0, rfl⟩ := (expiredEntry_some_iff today it' e).mp hsome
      obtain rfl : it' = it := heq
      obtain rfl : s' = s := Val.strV.inj (hv'.symm.trans hv)
      rw [hp] at hp'
      obtain rfl : today = d' := Option.some.inj hp'
      rw [dateDiff, sub_self] at h0
      exact lt_irrefl 0 h0
    · intro days hdays
      rw [get_expiring_soon, List.mem_insertionSort, List.mem_filterMap]
      refine ⟨it, hit, (expiringEntry_some_iff today days it _).mpr
        ⟨s, today, hv, hp, ?_, ?_, ?_⟩⟩
      · rw [dateDiff, sub_self]
      · rw [dateDiff, sub_self]; exact hdays
      · rw [dateDiff, sub_self]

/-- Witness for C3: an item expiring in two days is returned with
`days_left = 2`, and the result is sorted. -/
theorem get_expiring_soon_correct_witness :
    (⟨⟨.intV 1, .strV "a", .strV "2024-01-03", .strV "", .strV "", .strV ""⟩, 2⟩ : DatedItem)
      ∈ get_expiring_soon ⟨2024, 1, 1⟩ 7
          ⟨[⟨.intV 1, .strV "a", .strV "2024-01-03", .strV "", .strV "", .strV ""⟩], []⟩
    ∧ (get_expiring_soon ⟨2024, 1, 1⟩ 7
          ⟨[⟨.intV 1, .strV "a", .strV "2024-01-03", .strV "", .strV "", .strV ""⟩],
            []⟩).Sorted daysLe := by
  have h := get_expiring_soon_correct ⟨2024, 1, 1⟩ 7
    ⟨[⟨.intV 1, .strV "a", .strV "2024-01-03", .strV "", .strV "", .strV ""⟩], []⟩
  refine ⟨(h.2.2.1 _).mpr ⟨_, List.mem_singleton.mpr rfl, ?_⟩, h.2.1⟩
  decide

/-- Witness for C4: an item expiring exactly today is excluded from
`get_expired` and included in `get_expiring_soon 7` with `days_left = 0`. -/
theorem get_expired_correct_witness :
    (⟨.intV 1, .strV "b", .strV "2024-01-01", .strV "", .strV "", .strV ""⟩ : Item)
      ∉ (get_expired ⟨2024, 1, 1⟩
          ⟨[⟨.intV 1, .strV "b", .strV "2024-01-01", .strV "", .strV "", .strV ""⟩],
            []⟩).map DatedItem.item
    ∧ (⟨⟨.intV 1, .strV "b", .strV "2024-01-01", .strV "", .strV "", .strV ""⟩, 0⟩ : DatedItem)
      ∈ get_expiring_soon ⟨2024, 1, 1⟩ 7
          ⟨[⟨.intV 1, .strV "b", .strV "2024-01-01", .strV "", .strV "", .strV ""⟩], []⟩ := by
  have h := (get_expired_correct ⟨2024, 1, 1⟩
    ⟨[⟨.intV 1, .strV "b", .strV "2024-01-01", .strV "", .strV "", .strV ""⟩], []⟩).2.2.2.2
    ⟨.intV 1, .strV "b", .strV "2024-01-01", .strV "", .strV "", .strV ""⟩
    (List.mem_singleton.mpr rfl) "2024-01-01" rfl (by decide)
  exact ⟨h.1, h.2 7 (by decide)⟩

theorem lexLe_refl : ∀ as : List Char, lexLe as as = true
  | [] => rfl
  | a :: as => by simp [lexLe, lexLe_refl as]

/-- Stability of the sort in `get_meal_history`: the entries carrying any
fixed date occur in the sorted list exactly as they occur in the history
(same elements, same relative order). -/
theorem filter_insertionSort_date (d : String) :
    ∀ l : List MealEntry,
      (l.insertionSort dateGe).filter (fun x => x.date = d)
        = l.filter (fun x => x.date = d)
  | [] => rfl
  | a :: l => by
    rw [List.insertionSort, List.orderedInsert_eq_take_drop]
    have hsum := congrArg (List.filter fun x : MealEntry => decide (x.date = d))
      (List.takeWhile_append_dropWhile (fun b => ¬ dateGe a b) (l.insertionSort dateGe))
    by_cases hpa : a.date = d
    · have h1 : ((l.insertionSort dateGe).takeWhile fun b => ¬ dateGe a b).filter
          (fun x => x.date = d) = [] := by
        rw [List.filter_eq_nil_iff]
        intro b hb hbd
        have hq0 := List.mem_takeWhile_imp hb
        simp only [decide_eq_true_eq] at hq0
        apply hq0
        show strLeB b.date a.date = true
        have hbd' : b.date = d := of_decide_eq_true hbd
        rw [hbd', hpa]
        exact lexLe_refl _
      rw [List.filter_append, h1, List.nil_append,
        List.filter_cons_of_pos (by simpa using hpa)]
      rw [List.filter_append, h1, List.nil_append] at hsum
      rw [hsum, filter_insertionSort_date d l,
        List.filter_cons_of_pos (by simpa using hpa)]
    · rw [List.filter_append, List.filter_cons_of_neg (by simpa using hpa)]
      rw [List.filter_append] at hsum
      rw [hsum, filter_insertionSort_date d l,
        List.filter_cons_of_neg (by simpa using hpa)]

/-- C8: `get_meal_history(limit)` is the `limit`-prefix of the stable
descending sort of the history by timestamp: the sorted list is a
permutation of the history, descending in the `date` key, entries with
equal dates keep their original insertion order, every returned entry has
a date at least as great as every entry cut off, and the query returns
exactly its prefix. -/
theorem get_meal_history_correct (limit : Nat) (st : PrefState) :
    (st.meal_history.insertionSort dateGe).Perm st.meal_history
    ∧ get_meal_history limit st = (st.meal_history.insertionSort dateGe).take limit
    ∧ (st.meal_history.insertionSort dateGe).Sorted dateGe
    ∧ (∀ d : String, (st.meal_history.insertionSort dateGe).filter (fun x => x.date = d)
        = st.meal_history.filter (fun x => x.date = d))
    ∧ (∀ x ∈ (st.meal_history.insertionSort dateGe).take limit,
        ∀ y ∈ (st.meal_history.insertionSort dateGe).drop limit,
          strLeB y.date x.date = true) := by
  refine ⟨List.perm_insertionSort _ _, rfl, List.sorted_insertionSort _ _,
    fun d => filter_insertionSort_date d st.meal_history, ?_⟩
  have hs : (st.meal_history.insertionSort dateGe).Pairwise dateGe :=
    List.sorted_insertionSort _ _
  rw [← List.take_append_drop limit (st.meal_history.insertionSort dateGe)] at hs
  exact (List.pairwise_append.mp hs).2.2

/-- Witness for C8: on a history of five entries with distinct timestamps
and `limit = 2`, the query returns exactly the two most recent, newest
first, and a returned entry dominates a cut-off entry. -/
theorem get_meal_history_correct_witness :
    get_meal_history 2
        ⟨[], [], [], [], [],
          [⟨"m1", "2024-01-01", "d"⟩, ⟨"m2", "2024-01-02", "d"⟩, ⟨"m3", "2024-01-03", "d"⟩,
            ⟨"m4", "2024-01-04", "d"⟩, ⟨"m5", "2024-01-05", "d"⟩], []⟩
      = [⟨"m5", "2024-01-05", "d"⟩, ⟨"m4", "2024-01-04", "d"⟩]
    ∧ strLeB "2024-01-01" "2024-01-05" = true := by
  have h := get_meal_history_correct 2
    ⟨[], [], [], [], [],
      [⟨"m1", "2024-01-01", "d"⟩, ⟨"m2", "2024-01-02", "d"⟩, ⟨"m3", "2024-01-03", "d"⟩,
        ⟨"m4", "2024-01-04", "d"⟩, ⟨"m5", "2024-01-05", "d"⟩], []⟩
  refine ⟨h.2.1.trans (by decide), ?_⟩
  exact h.2.2.2.2 ⟨"m5", "2024-01-05", "d"⟩ (by decide) ⟨"m1", "2024-01-01", "d"⟩ (by decide)

/-- `updateFirst` finds nothing when no stored id matches. -/
theorem updateFirst_none (itemId : Val) (kwargs : List (String × Val)) :
    ∀ l : List Item, (∀ it ∈ l, it.id ≠ itemId) → updateFirst itemId kwargs l = none
  | [], _ => rfl
  | it :: rest, h => by
    rw [updateFirst, if_neg (h it (List.mem_cons_self _ _)),
      updateFirst_none itemId kwargs rest (fun x hx => h x (List.mem_cons_of_mem _ hx))]
    rfl

/-- `updateFirst` rewrites exactly the first item whose id matches. -/
theorem updateFirst_some (itemId : Val) (kwargs : List (String × Val)) :
    ∀ l : List Item, (∃ it ∈ l, it.id = itemId) →
      ∃ pre a post, l = pre ++ a :: post ∧ (∀ p ∈ pre, p.id ≠ itemId) ∧ a.id = itemId
        ∧ updateFirst itemId kwargs l = some (pre ++ (kwargs.foldl setKnownField a) :: post)
  | [], h => absurd h (by simp)
  | it :: rest, h => by
    by_cases hid : it.id = itemId
    · exact ⟨[], it, rest, rfl, by simp, hid, by simp [updateFirst, hid]⟩
    · have hrest : ∃ a ∈ rest, a.id = itemId := by
        obtain ⟨a, ha, haid⟩ := h
        rcases List.mem_cons.mp ha with rfl | ha'
        · exact absurd haid hid
        · exact ⟨a, ha', haid⟩
      obtain ⟨pre, a, post, hl, hpre, haid, hupd⟩ := updateFirst_some itemId kwargs rest hrest
      refine ⟨it :: pre, a, post, by rw [hl]; rfl, ?_, haid, ?_⟩
      · intro p hp
        rcases List.mem_cons.mp hp with rfl | hp'
        · exact hid
        · exact hpre p hp'
      · simp [updateFirst, hid, hupd]

theorem setKnownField_id (it : Item) (q : String) (v : Val) (h : q ≠ "id") :
    (setKnownField it (q, v)).id = it.id := by
  unfold setKnownField
  split_ifs <;> simp_all

theorem setKnownField_name (it : Item) (q : String) (v : Val) (h : q ≠ "name") :
    (setKnownField it (q, v)).name = it.name := by
  unfold setKnownField
  split_ifs <;> simp_all

theorem setKnownField_expiry (it : Item) (q : String) (v : Val) (h : q ≠ "expiry_date") :
    (setKnownField it (q, v)).expiry_date = it.expiry_date := by
  unfold setKnownField
  split_ifs <;> simp_all

theorem setKnownField_quantity (it : Item) (q : String) (v : Val) (h : q ≠ "quantity") :
    (setKnownField it (q, v)).quantity = it.quantity := by
  unfold setKnownField
  split_ifs <;> simp_all

theorem setKnownField_category (it : Item) (q : String) (v : Val) (h : q ≠ "category") :
    (setKnownField it (q, v)).category = it.category := by
  unfold setKnownField
  split_ifs <;> simp_all

theorem setKnownField_added (it : Item) (q : String) (v : Val) (h : q ≠ "added_date") :
    (setKnownField it (q, v)).added_date = it.added_date := by
  unfold setKnownField
  split_ifs <;> simp_all

/-- Assigning an existing key other than `k` does not change the value
read at `k`. -/
theorem getField_set_ne (it : Item) (q : String) (k : String) (v : Val) (h : q ≠ k) :
    getField (setKnownField it (q, v)) k = getField it k := by
  unfold getField
  split_ifs with g1 g2 g3 g4 g5 g6
  · rw [setKnownField_id it q v (g1 ▸ h)]
  · rw [setKnownField_name it q v (g2 ▸ h)]
  · rw [setKnownField_expiry it q v (g3 ▸ h)]
  · rw [setKnownField_quantity it q v (g4 ▸ h)]
  · rw [setKnownField_category it q v (g5 ▸ h)]
  · rw [setKnownField_added it q v (g6 ▸ h)]
  · rfl

/-- C9: `update_item(id, field_updates)` returns failure and changes
nothing when no stored item has the given id; otherwise it succeeds and
replaces exactly the first matching item by the result of applying the
updates, where an update to an unknown field name is a no-op and the
updates leave every field not mentioned in them unchanged. -/
theorem update_item_correct (itemId : Val) (kwargs : List (String × Val))
    (st : TrackerState) :
    ((∀ it ∈ st.items, it.id ≠ itemId) →
        update_item itemId kwargs st = (false, st))
    ∧ ((∃ it ∈ st.items, it.id = itemId) →
        (update_item itemId kwargs st).1 = true
        ∧ ∃ pre a post, st.items = pre ++ a :: post
            ∧ (∀ p ∈ pre, p.id ≠ itemId) ∧ a.id = itemId
            ∧ (update_item itemId kwargs st).2.items
                = pre ++ (kwargs.foldl setKnownField a) :: post
            ∧ (update_item itemId kwargs st).2.notifications = st.notifications)
    ∧ (∀ (it : Item) (k : String) (v : Val), k ∉ itemKeys → setKnownField it (k, v) = it)
    ∧ (∀ (it : Item) (k : String), (∀ kv ∈ kwargs, kv.1 ≠ k) →
        getField (kwargs.foldl setKnownField it) k = getField it k) := by
  refine ⟨?_, ?_, ?_, ?_⟩
  · intro h
    rw [update_item, updateFirst_none itemId kwargs st.items h]
  · intro h
    obtain ⟨pre, a, post, hl, hpre, haid, hupd⟩ := updateFirst_some itemId kwargs st.items h
    rw [update_item, hupd]
    exact ⟨rfl, pre, a, post, hl, hpre, haid, rfl, rfl⟩
  · intro it k v hk
    simp only [itemKeys, List.mem_cons, List.not_mem_nil, or_false] at hk
    push_neg at hk
    obtain ⟨h1, h2, h3, h4, h5, h6⟩ := hk
    simp [setKnownField, h1, h2, h3, h4, h5, h6]
  · intro it k hk
    induction kwargs generalizing it with
    | nil => rfl
    | cons kv rest ih =>
      rw [List.foldl_cons, ih (setKnownField it kv)
        (fun kv' h' => hk kv' (List.mem_cons_of_mem _ h'))]
      exact getField_set_ne it kv.1 k kv.2 (hk kv (List.mem_cons_self _ _))

/-- Witness for C9: updating a missing id fails and leaves the store
unchanged; an unknown field name is ignored. -/
theorem update_item_correct_witness :
    update_item (.intV 2) [("name", .strV "x")]
        ⟨[⟨.intV 1, .strV "a", .strV "2024-01-02", .strV "", .strV "", .strV ""⟩], []⟩
      = (false, ⟨[⟨.intV 1, .strV "a", .strV "2024-01-02", .strV "", .strV "", .strV ""⟩], []⟩)
    ∧ setKnownField ⟨.intV 1, .strV "a", .strV "2024-01-02", .strV "", .strV "", .strV ""⟩
        ("bogus", .intV 7)
      = ⟨.intV 1, .strV "a", .strV "2024-01-02", .strV "", .strV "", .strV ""⟩ := by
  have h := update_item_correct (.intV 2) [("name", .strV "x")]
    ⟨[⟨.intV 1, .strV "a", .strV "2024-01-02", .strV "", .strV "", .strV ""⟩], []⟩
  exact ⟨h.1 (by decide), h.2.2.1 _ "bogus" (.intV 7) (by decide)⟩

/-- Setting the cell just appended rewrites only that cell. -/
theorem set_append_length {α : Type} : ∀ (l : List α) (a b : α),
    (l ++ [a]).set l.length b = l ++ [b]
  | [], _, _ => rfl
  | x :: l, a, b => by
    simp only [List.cons_append, List.length_cons, List.set_cons_succ]
    rw [set_append_length l a b]

/-- One `get_expiring_soon` iteration only appends to the heap: every
mutation hits the freshly allocated copy. -/
theorem expiringStepH_extends (today : Date) (days : Int)
    (acc : List HeapObj × List Nat) (r : Nat) :
    ∃ ext, (expiringStepH today days acc r).1 = acc.1 ++ ext := by
  rcases acc with ⟨heap, out⟩
  cases hr : heap[r]? with
  | none => exact ⟨[], by simp [expiringStepH, hr]⟩
  | some obj =>
    cases hv : obj.item.expiry_date with
    | intV n => exact ⟨[], by simp [expiringStepH, hr, hv]⟩
    | strV s =>
      cases hp : fromIso s with
      | none => exact ⟨[], by simp [expiringStepH, hr, hv, hp]⟩
      | some d =>
        by_cases hc : 0 ≤ dateDiff d today ∧ dateDiff d today ≤ days
        · refine ⟨[{ obj with days_left := some (dateDiff d today) }], ?_⟩
          simp only [expiringStepH, hr, hv, hp, hc, if_pos]
          exact set_append_length heap obj _
        · exact ⟨[], by simp [expiringStepH, hr, hv, hp, hc]⟩

/-- One `get_expired` iteration only appends to the heap. -/
theorem expiredStepH_extends (today : Date)
    (acc : List HeapObj × List Nat) (r : Nat) :
    ∃ ext, (expiredStepH today acc r).1 = acc.1 ++ ext := by
  rcases acc with ⟨heap, out⟩
  cases hr : heap[r]? with
  | none => exact ⟨[], by simp [expiredStepH, hr]⟩
  | some obj =>
    cases hv : obj.item.expiry_date with
    | intV n => exact ⟨[], by simp [expiredStepH, hr, hv]⟩
    | strV s =>
      cases hp : fromIso s with
      | none => exact ⟨[], by simp [expiredStepH, hr, hv, hp]⟩
      | some d =>
        by_cases hc : dateDiff today d > 0
        · refine ⟨[{ obj with days_expired := some (dateDiff today d) }], ?_⟩
          simp only [expiredStepH, hr, hv, hp, hc, if_pos]
          exact set_append_length heap obj _
        · exact ⟨[], by simp [expiredStepH, hr, hv, hp, hc]⟩

/-- The whole `get_expiring_soon` loop only appends to the heap. -/
theorem foldl_expiringStepH_extends (today : Date) (days : Int) :
    ∀ (refs : List Nat) (acc : List HeapObj × List Nat),
      ∃ ext, (refs.foldl (expiringStepH today days) acc).1 = acc.1 ++ ext
  | [], acc => ⟨[], by simp⟩
  | r :: refs, acc => by
    obtain ⟨e1, h1⟩ := expiringStepH_extends today days acc r
    obtain ⟨e2, h2⟩ := foldl_expiringStepH_extends today days refs
      (expiringStepH today days acc r)
    exact ⟨e1 ++ e2, by rw [List.foldl_cons, h2, h1, List.append_assoc]⟩

/-- The whole `get_expired` loop only appends to the heap. -/
theorem foldl_expiredStepH_extends (today : Date) :
    ∀ (refs : List Nat) (acc : List HeapObj × List Nat),
      ∃ ext, (refs.foldl (expiredStepH today) acc).1 = acc.1 ++ ext
  | [], acc => ⟨[], by simp⟩
  | r :: refs, acc => by
    obtain ⟨e1, h1⟩ := expiredStepH_extends today acc r
    obtain ⟨e2, h2⟩ := foldl_expiredStepH_extends today refs (expiredStepH today acc r)
    exact ⟨e1 ++ e2, by rw [List.foldl_cons, h2, h1, List.append_assoc]⟩

/-- C10: the two expiry queries are read-only on the stored data — every
dict reachable before the call (in particular every stored item) is
unchanged at its reference after the call; the day counts are written only
to the freshly allocated copies, which live strictly beyond the original
heap. -/
theorem queries_preserve_heap (today : Date) (days : Int) (heap : List HeapObj)
    (itemRefs : List Nat) :
    (∀ r : Nat, r < heap.length →
        (get_expiring_soonH today days heap itemRefs).1[r]? = heap[r]?
        ∧ (get_expiredH today heap itemRefs).1[r]? = heap[r]?)
    ∧ (get_expiring_soonH today days heap itemRefs).1.take heap.length = heap
    ∧ (get_expiredH today heap itemRefs).1.take heap.length = heap := by
  obtain ⟨e1, h1⟩ := foldl_expiringStepH_extends today days itemRefs (heap, [])
  obtain ⟨e2, h2⟩ := foldl_expiredStepH_extends today itemRefs (heap, [])
  have hq1 : (get_expiring_soonH today days heap itemRefs).1 = heap ++ e1 := h1
  have hq2 : (get_expiredH today heap itemRefs).1 = heap ++ e2 := h2
  refine ⟨?_, ?_, ?_⟩
  · intro r hr
    rw [hq1, hq2]
    exact ⟨List.getElem?_append_left hr, List.getElem?_append_left hr⟩
  · rw [hq1]
    exact List.take_left heap e1
  · rw [hq2]
    exact List.take_left heap e2

/-- Witness for C10: a store holding one item that the query does copy —
the stored cell is unchanged after both queries. -/
theorem queries_preserve_heap_witness :
    (get_expiring_soonH ⟨2024, 1, 1⟩ 7
        [⟨⟨.intV 1, .strV "a", .strV "2024-01-02", .strV "", .strV "", .strV ""⟩, none, none⟩]
        [0]).1[0]?
      = some ⟨⟨.intV 1, .strV "a", .strV "2024-01-02", .strV "", .strV "", .strV ""⟩, none, none⟩
    ∧ (get_expiredH ⟨2024, 1, 1⟩
        [⟨⟨.intV 1, .strV "a", .strV "2024-01-02", .strV "", .strV "", .strV ""⟩, none, none⟩]
        [0]).1.take 1
      = [⟨⟨.intV 1, .strV "a", .strV "2024-01-02", .strV "", .strV "", .strV ""⟩, none, none⟩] := by
  have h := queries_preserve_heap ⟨2024, 1, 1⟩ 7
    [⟨⟨.intV 1, .strV "a", .strV "2024-01-02", .strV "", .strV "", .strV ""⟩, none, none⟩] [0]
  exact ⟨((h.1 0 (by decide)).1).trans rfl, h.2.2⟩
